import Mathlib

/-!
Verification of the metrics-extraction and batch-fetch core of
`fetch_data.py` (market-dashboard).  Python floats are embedded as
rationals (`ℚ`); `round(x, n)` is embedded as round-half-to-even at `n`
decimal places, matching Python's documented rounding mode.  Missing
values (pandas `NaN`) are embedded as `Option`: a `Bar` carries optional
`close`/`high` cells, and `dropna` becomes a filter on `isSome`.
-/

namespace MarketDash

/-- Round-half-to-even to the nearest integer, the rounding mode of
Python's built-in `round`. -/
def roundHalfEven (q : ℚ) : ℤ :=
  let f := ⌊q⌋
  let r := q - f
  if r < 1/2 then f
  else if 1/2 < r then f + 1
  else if 2 ∣ f then f else f + 1

/-- Python `round(x, 2)`. -/
def round2 (q : ℚ) : ℚ := (roundHalfEven (q * 100) : ℚ) / 100

/-- Python `round(x, 4)`. -/
def round4 (q : ℚ) : ℚ := (roundHalfEven (q * 10000) : ℚ) / 10000

/-- `pct(new, old)` from `fetch_data.py`:
```
def pct(new, old):
    if old and old != 0:
        return round((new - old) / abs(old) * 100, 2)
    return 0.0
```
Over `ℚ` the guard `old and old != 0` is `old ≠ 0`. -/
def pct (new old : ℚ) : ℚ :=
  if old ≠ 0 then round2 ((new - old) / |old| * 100) else 0

/-- One row of the daily-bar frame: trading-day year (from the
`DatetimeIndex`) plus the `Close` and `High` cells, each possibly missing. -/
structure Bar where
  year  : ℤ
  close : Option ℚ
  high  : Option ℚ
  deriving Repr, DecidableEq

/-- A per-symbol slice of the downloaded data: its rows plus whether the
frame has a `High` column at all (`'High' in df`). -/
structure Frame where
  bars    : List Bar
  hasHigh : Bool
  deriving Repr, DecidableEq

/-- The record built by `extract_metrics`.  `id`/`name` are `none` except
for the four known crypto pairs. -/
structure MetricRecord where
  sym   : String
  price : ℚ
  d1    : ℚ
  w1    : ℚ
  hi52  : ℚ
  ytd   : ℚ
  spark : List ℚ
  id    : Option String
  name  : Option String
  deriving Repr, DecidableEq

/-- The static `TICKER_REMAP` table of `fetch_data.py`. -/
def TICKER_REMAP : List (String × String) :=
  [("ES=F", "ES1!"), ("NQ=F", "NQ1!"), ("RTY=F", "RTY1!"), ("YM=F", "YM1!"),
   ("GC=F", "GC1!"), ("SI=F", "SI1!"), ("HG=F", "HG1!"), ("PL=F", "PL1!"),
   ("PA=F", "PA1!"),
   ("CL=F", "CL1!"), ("NG=F", "NG1!"),
   ("^TNX", "US10Y"), ("^TYX", "US30Y"),
   ("DX-Y.NYB", "DX-Y.NYB"), ("^VIX", "CBOE:VIX"),
   ("BTC-USD", "BTC"), ("ETH-USD", "ETH"), ("SOL-USD", "SOL"),
   ("XRP-USD", "XRP")]

/-- `TICKER_REMAP.get(sym, sym)`. -/
def remapTicker (sym : String) : String :=
  (TICKER_REMAP.lookup sym).getD sym

/-- The `crypto_ids` table inside `extract_metrics`. -/
def crypto_ids : List (String × String) :=
  [("BTC-USD", "bitcoin"), ("ETH-USD", "ethereum"),
   ("SOL-USD", "solana"), ("XRP-USD", "ripple")]

/-- The `crypto_names` table inside `extract_metrics`. -/
def crypto_names : List (String × String) :=
  [("BTC-USD", "Bitcoin"), ("ETH-USD", "Ethereum"),
   ("SOL-USD", "Solana"), ("XRP-USD", "Ripple")]

/-- `df.dropna(subset=['Close'])`: keep only rows whose `Close` is present. -/
def dropnaClose (bars : List Bar) : List Bar :=
  bars.filter fun b => b.close.isSome

/-- The `Close` column of the retained rows (`df['Close'].values`). -/
def closesOf (frame : Frame) : List ℚ :=
  (dropnaClose frame.bars).filterMap fun b => b.close

/-- The `High` column of the retained rows (values that are present). -/
def highsOf (frame : Frame) : List ℚ :=
  (dropnaClose frame.bars).filterMap fun b => b.high

/-- The loop
```
spark = []
for i in range(max(1, len(closes)-5), len(closes)):
    spark.append(round(pct(closes[i], closes[i-1]), 2))
while len(spark) < 5:
    spark.insert(0, 0.0)
``` -/
def sparkOf (closes : List ℚ) : List ℚ :=
  let n := closes.length
  let start := max 1 (n - 5)
  let raw := (List.range' start (n - start)).map fun i =>
    round2 (pct (closes.getD i 0) (closes.getD (i - 1) 0))
  List.replicate (5 - raw.length) 0 ++ raw

/-- `hi52_price = float(df['High'].max()) if 'High' in df else price`.
pandas `max` ignores missing cells; on a frame whose `High` column has no
present value at all pandas would return a non-number (unrepresentable in
`ℚ`), which we embed by falling back to `price` — unreachable in every
statement below, all of which either supply highs or avoid the column. -/
def hi52PriceOf (frame : Frame) (price : ℚ) : ℚ :=
  if frame.hasHigh then ((highsOf frame).maximum).unbot' price else price

/-- `extract_metrics(df, sym)` of `fetch_data.py`, with the ambient
`datetime.datetime.now().year` passed explicitly as `thisYear`. -/
def extract_metrics (frame : Frame) (sym : String) (thisYear : ℤ) :
    Option MetricRecord :=
  let df := dropnaClose frame.bars
  if df.length < 2 then none else
  let closes := closesOf frame
  let n := closes.length
  let price := closes.getD (n - 1) 0
  let d1 := if 2 ≤ n then pct price (closes.getD (n - 2) 0) else 0
  let w1 := if 6 ≤ n then pct price (closes.getD (n - 6) 0) else 0
  let hi52_pct := pct price (hi52PriceOf frame price)
  let ytd_df := df.filter fun b => b.year == thisYear
  let ytd := match ytd_df with
    | [] => 0
    | b :: _ => pct price (b.close.getD 0)
  some { sym := remapTicker sym
         price := round4 price
         d1 := d1, w1 := w1, hi52 := hi52_pct, ytd := ytd
         spark := sparkOf closes
         id := crypto_ids.lookup sym
         name := crypto_names.lookup sym }

/-! ## Batch fetcher (`fetch_batch`, post-processing of `fetch_all`)

Network behaviour is embedded as an oracle: attempt `i` of `yf.download`
either raises (`Except.error`) or returns the downloaded data.  The
downloaded data answers both access paths of the source: the whole frame
(single-ticker path) and per-symbol slicing (multi-ticker path).  A
per-symbol slice is `missing` when the symbol is in neither
`data.columns.get_level_values(0)` nor `data` (the `continue` branch),
`raises` when touching that symbol's slice throws (caught by the
per-symbol `except`), or a frame. -/

/-- Outcome of `data[sym]` on the multi-ticker path. -/
inductive SliceOutcome where
  | missing : SliceOutcome
  | raises  : SliceOutcome
  | found   : Frame → SliceOutcome
  deriving Repr, DecidableEq

/-- The value returned by one successful `yf.download` call. -/
structure DownloadData where
  whole : Except Unit Frame
  slice : String → SliceOutcome

/-- `data[sym].dropna()` (no subset): drop a row when any modelled cell is
missing — `Close` always, `High` only when the frame has that column. -/
def dropnaRow (fr : Frame) : Frame :=
  { fr with bars := fr.bars.filter fun b =>
      b.close.isSome && (!fr.hasHigh || b.high.isSome) }

/-- The `len(tickers) == 1` branch of `fetch_batch`: extraction is wrapped
in a per-symbol `try`, so a raising access contributes nothing. -/
def processSingle (sym : String) (d : DownloadData) (year : ℤ) :
    List (String × Option MetricRecord) :=
  match d.whole with
  | .error _ => []
  | .ok fr => [(sym, extract_metrics fr sym year)]

/-- The multi-ticker loop of `fetch_batch`: for each symbol, a missing
slice is skipped (`continue`), a raising slice is caught and skipped, and
a found slice is row-dropped and extracted; `results[sym]` stores the
extractor's output even when it is the absence signal `None`. -/
def processMulti (tickers : List String) (d : DownloadData) (year : ℤ) :
    List (String × Option MetricRecord) :=
  tickers.filterMap fun sym =>
    match d.slice sym with
    | .missing => none
    | .raises => none
    | .found fr => some (sym, extract_metrics (dropnaRow fr) sym year)

/-- The retry loop: starting at attempt `start` with `fuel` attempts left,
return the first successful download together with its attempt index. -/
def tryDownload (attempts : ℕ → Except Unit DownloadData) :
    ℕ → ℕ → Option (DownloadData × ℕ)
  | _, 0 => none
  | start, fuel + 1 =>
    match attempts start with
    | .ok d => some (d, start)
    | .error _ => tryDownload attempts (start + 1) fuel

/-- `fetch_batch(tickers, retries=3)`.  Besides the result mapping
(an association list in insertion order; the source's dict assignments
never repeat a key for duplicate-free ticker lists) it returns the trace
of `time.sleep` delays — one `5` per failed attempt — and the number of
download attempts made. -/
def fetch_batch (tickers : List String)
    (attempts : ℕ → Except Unit DownloadData) (year : ℤ)
    (retries : ℕ := 3) :
    List (String × Option MetricRecord) × List ℕ × ℕ :=
  match tryDownload attempts 0 retries with
  | none => ([], List.replicate retries 5, retries)
  | some (d, i) =>
    if tickers.length == 1 then
      (processSingle (tickers.headD "") d year, List.replicate i 5, i + 1)
    else
      (processMulti tickers d year, List.replicate i 5, i + 1)

/-- The five ranked groups of `fetch_all`'s post-processing step. -/
def rankedKeys : List String :=
  ["country", "sector", "sectorew", "thematic", "submarket"]

/-- `output[key].sort(key=lambda x: x.get('w1', 0), reverse=True)`:
Python's sort is stable, and `reverse=True` keeps it stable while
ordering keys descending; a stable descending sort is embedded as
`mergeSort` under the total preorder `b.w1 ≤ a.w1`. -/
def rankedSort (l : List MetricRecord) : List MetricRecord :=
  l.mergeSort fun a b => decide (b.w1 ≤ a.w1)

/-- The post-processing loop: groups named in `rankedKeys` are sorted by
`w1` descending, the rest are untouched. -/
def postSort (output : String → List MetricRecord) :
    String → List MetricRecord :=
  fun key => if key ∈ rankedKeys then rankedSort (output key) else output key

/-! ## Spec-side definitions (for refinement statements) -/

/-- Modelled from the spec's words for the `spark` field (claim C3): the
guarded percent changes of the last up-to-5 consecutive close pairs, in
recency order, left-padded with `0.0` to length 5. -/
def sparkSpecOf (closes : List ℚ) : List ℚ :=
  let changes := (closes.zip closes.tail).map fun p => pct p.2 p.1
  let lastFive := changes.drop (changes.length - 5)
  List.replicate (5 - lastFive.length) 0 ++ lastFive

/-- The Bar invariant of claim C10, decidably: every retained bar (one
with a present close) has a present high with `0 < close ≤ high`. -/
def barInvariantB (frame : Frame) : Bool :=
  frame.bars.all fun b =>
    !b.close.isSome ||
      (match b.close, b.high with
       | some c, some h => decide (0 < c ∧ c ≤ h)
       | _, _ => false)

/-! ## Concrete fixtures -/

/-- A bar with both cells present. -/
def mkBar (y : ℤ) (c h : ℚ) : Bar := { year := y, close := some c, high := some h }

/-- The spec's end-to-end scenario: 10 daily closes
`[100,101,99,102,103,101,104,105,103,106]`, highs equal to closes (so the
maximum high is 106). -/
def scenarioFrame : Frame :=
  { bars := [mkBar 2025 100 100, mkBar 2025 101 101, mkBar 2025 99 99,
             mkBar 2025 102 102, mkBar 2025 103 103, mkBar 2025 101 101,
             mkBar 2025 104 104, mkBar 2025 105 105, mkBar 2025 103 103,
             mkBar 2025 106 106], hasHigh := true }

/-- The record `extract_metrics` produces on `scenarioFrame`. -/
def scenarioRecord : MetricRecord :=
  { sym := "SPY", price := 106, d1 := 2.91, w1 := 2.91, hi52 := 0, ytd := 6,
    spark := [-1.94, 2.97, 0.96, -1.9, 2.91], id := none, name := none }

/-- Two bars obeying the Bar invariant whose latest close (99999) sits just
under the maximum high (100000): the percent gap rounds to 0.00. -/
def nearHighFrame : Frame :=
  { bars := [mkBar 2025 1 1, mkBar 2025 99999 100000], hasHigh := true }

/-- The record `extract_metrics` produces on `nearHighFrame`. -/
def nearHighRecord : MetricRecord :=
  { sym := "X", price := 99999, d1 := 9999800, w1 := 0, hi52 := 0,
    ytd := 9999800, spark := [0, 0, 0, 0, 9999800], id := none, name := none }

/-- A small two-bar frame obeying the Bar invariant. -/
def smallFrame : Frame :=
  { bars := [mkBar 2025 1 1, mkBar 2025 2 2], hasHigh := true }

/-- The record `extract_metrics` produces on `smallFrame`. -/
def smallRecord : MetricRecord :=
  { sym := "Y", price := 2, d1 := 100, w1 := 0, hi52 := 0, ytd := 100,
    spark := [0, 0, 0, 0, 100], id := none, name := none }

/-- Download data for the isolation witness: one resolvable identifier
and one whose slice raises. -/
def oneBadData : DownloadData :=
  { whole := Except.error ()
    slice := fun s => if s = "GOOD" then .found smallFrame else .raises }

/-- A record fixture used in the sorting example. -/
def exRec (s : String) (q : ℚ) : MetricRecord :=
  { sym := s, price := 0, d1 := 0, w1 := q, hi52 := 0, ytd := 0,
    spark := [], id := none, name := none }

/-! ## Theorems -/

/-- C1: `pct` returns exactly 0.0 when `old == 0` (the division branch is
never taken), and `(new - old) / abs(old) * 100` rounded to 2 decimals
when `old != 0`. -/
theorem pct_guard (new old : ℚ) :
    (old = 0 → pct new old = 0) ∧
    (old ≠ 0 → pct new old = round2 ((new - old) / |old| * 100)) := by
  constructor
  · intro h; simp [pct, h]
  · intro h; simp [pct, h]

/-- Witness for C1 at `old = 0` and at `(new, old) = (106, 103)`. -/
theorem pct_guard_witness :
    pct 7 0 = 0 ∧ pct 106 103 = round2 ((106 - 103) / |(103 : ℚ)| * 100) :=
  ⟨(pct_guard 7 0).1 rfl, (pct_guard 106 103).2 (by norm_num)⟩

/-- C2: `extract_metrics` returns a record exactly when at least 2 bars
remain after dropping bars with a missing close; on fewer it returns the
absence signal `none`, never a partial record. -/
theorem extract_metrics_absence (frame : Frame) (sym : String) (y : ℤ) :
    (extract_metrics frame sym y).isSome ↔
      2 ≤ (dropnaClose frame.bars).length := by
  by_cases h : (dropnaClose frame.bars).length < 2
  · simp [extract_metrics, h]
  · simp [extract_metrics, h]
    omega

/-- Witness for C2: a 2-valid-bar frame yields a record. -/
theorem extract_metrics_absence_witness :
    (extract_metrics nearHighFrame "X" 2025).isSome = true :=
  (extract_metrics_absence nearHighFrame "X" 2025).mpr (by decide)

/-- C8: on any produced record, `w1` is the guarded percent change of the
latest close versus the close 5 bars earlier when at least 6 closes exist,
and exactly 0.0 otherwise. -/
theorem extract_metrics_w1 (frame : Frame) (sym : String) (y : ℤ)
    (r : MetricRecord) (h : extract_metrics frame sym y = some r) :
    (6 ≤ (closesOf frame).length →
      r.w1 = pct ((closesOf frame).getD ((closesOf frame).length - 1) 0)
                 ((closesOf frame).getD ((closesOf frame).length - 6) 0)) ∧
    ((closesOf frame).length < 6 → r.w1 = 0) := by
  rw [extract_metrics] at h
  split at h
  · exact absurd h (by simp)
  · rw [Option.some.injEq] at h
    subst h
    constructor
    · intro h6; simp [h6]
    · intro h6; simp [Nat.not_le.mpr h6]

/-- Witness for C8 on the 10-bar scenario frame. -/
theorem extract_metrics_w1_witness :
    scenarioRecord.w1 =
      pct ((closesOf scenarioFrame).getD ((closesOf scenarioFrame).length - 1) 0)
          ((closesOf scenarioFrame).getD ((closesOf scenarioFrame).length - 6) 0) :=
  (extract_metrics_w1 scenarioFrame "SPY" 2025 scenarioRecord
    (by with_unfolding_all decide)).1 (by decide)

/-- C9: symbol remapping is the static table lookup: `ES=F` maps to
`ES1!`, identifiers absent from the table pass through unchanged, and a
produced record's `sym` field is exactly the remap of the input
identifier. -/
theorem ticker_remap_spec :
    remapTicker "ES=F" = "ES1!" ∧
    (∀ sym, TICKER_REMAP.lookup sym = none → remapTicker sym = sym) ∧
    (∀ frame sym y r, extract_metrics frame sym y = some r →
      r.sym = remapTicker sym) := by
  refine ⟨rfl, ?_, ?_⟩
  · intro sym h; simp [remapTicker, h]
  · intro frame sym y r h
    rw [extract_metrics] at h
    split at h
    · exact absurd h (by simp)
    · rw [Option.some.injEq] at h
      subst h
      rfl

/-- Witness for C9: the unmapped identifier `SPY` passes through, and the
scenario record's symbol is the remap of its input identifier. -/
theorem ticker_remap_witness :
    remapTicker "SPY" = "SPY" ∧ scenarioRecord.sym = remapTicker "SPY" :=
  ⟨ticker_remap_spec.2.1 "SPY" rfl,
   ticker_remap_spec.2.2 scenarioFrame "SPY" 2025 scenarioRecord
     (by with_unfolding_all decide)⟩

/-! Rounding helper lemmas. -/

theorem roundHalfEven_intCast (m : ℤ) : roundHalfEven (m : ℚ) = m := by
  unfold roundHalfEven
  norm_num

theorem round2_round2 (q : ℚ) : round2 (round2 q) = round2 q := by
  unfold round2
  rw [div_mul_cancel₀ _ (by norm_num : (100 : ℚ) ≠ 0), roundHalfEven_intCast]

theorem round2_zero : round2 0 = 0 := by
  unfold round2
  norm_num [roundHalfEven]

theorem round2_pct (a b : ℚ) : round2 (pct a b) = pct a b := by
  unfold pct
  split
  · exact round2_round2 _
  · exact round2_zero

theorem roundHalfEven_nonpos {q : ℚ} (hq : q ≤ 0) : roundHalfEven q ≤ 0 := by
  have hf : ⌊q⌋ ≤ 0 := Int.floor_nonpos hq
  have hstep : ¬(q - ⌊q⌋ < 1/2) → ⌊q⌋ + 1 ≤ 0 := by
    intro hr
    have h2 : ((⌊q⌋ : ℚ)) ≤ q - 1/2 := by
      have := not_lt.mp hr
      linarith
    have : ((⌊q⌋ : ℚ)) < 0 := by linarith
    have : ⌊q⌋ < 0 := by exact_mod_cast this
    omega
  simp only [roundHalfEven]
  split
  · exact hf
  · split
    · exact hstep (by assumption)
    · split
      · exact hf
      · exact hstep (by assumption)

theorem round2_nonpos {q : ℚ} (hq : q ≤ 0) : round2 q ≤ 0 := by
  unfold round2
  have h : roundHalfEven (q * 100) ≤ 0 :=
    roundHalfEven_nonpos (by linarith)
  have hc : ((roundHalfEven (q * 100) : ℚ)) ≤ 0 := by exact_mod_cast h
  exact div_nonpos_iff.mpr (Or.inr ⟨hc, by norm_num⟩)

theorem pct_self (x : ℚ) : pct x x = 0 := by
  unfold pct
  split
  · simp [round2_zero]
  · rfl

theorem pct_nonpos_of_le {x y : ℚ} (hx : x ≤ y) (hy : 0 < y) : pct x y ≤ 0 := by
  unfold pct
  rw [if_pos (ne_of_gt hy)]
  apply round2_nonpos
  have hsub : x - y ≤ 0 := by linarith
  rw [abs_of_pos hy]
  have hdiv : (x - y) / y ≤ 0 := div_nonpos_iff.mpr (Or.inr ⟨hsub, le_of_lt hy⟩)
  linarith

/-! Spark helper lemmas. -/

theorem sparkOf_length (closes : List ℚ) : (sparkOf closes).length = 5 := by
  unfold sparkOf
  simp only [List.length_append, List.length_replicate, List.length_map,
    List.length_range']
  omega

theorem sparkOf_eq_sparkSpecOf (closes : List ℚ) :
    sparkOf closes = sparkSpecOf closes := by
  have key : (List.range' (max 1 (closes.length - 5))
        (closes.length - max 1 (closes.length - 5))).map
        (fun i => round2 (pct (closes.getD i 0) (closes.getD (i - 1) 0))) =
      ((closes.zip closes.tail).map fun p => pct p.2 p.1).drop
        (((closes.zip closes.tail).map fun p => pct p.2 p.1).length - 5) := by
    apply List.ext_getElem
    · simp only [List.length_map, List.length_range', List.length_drop,
        List.length_zip, List.length_tail]
      omega
    · intro i h1 h2
      simp only [List.length_map, List.length_range'] at h1
      simp only [List.length_drop, List.length_map, List.length_zip,
        List.length_tail] at h2
      simp only [List.getElem_map, List.getElem_range'_1, List.getElem_drop,
        List.getElem_zip, List.getElem_tail]
      have hb : max 1 (closes.length - 5) + i < closes.length := by omega
      rw [List.getD_eq_getElem _ _ hb,
          List.getD_eq_getElem _ _
            (by omega : max 1 (closes.length - 5) + i - 1 < closes.length)]
      have e1 : max 1 (closes.length - 5) + i =
          (closes.length - 1) - 5 + i + 1 := by omega
      have e2 : max 1 (closes.length - 5) + i - 1 =
          (closes.length - 1) - 5 + i := by omega
      simp only [e1, e2]
      simp only [List.length_map, List.length_zip, List.length_tail]
      have e3 : closes.length - 1 - 5 + i + 1 - 1 =
          closes.length - 1 - 5 + i := by omega
      have e4 : closes.length ⊓ (closes.length - 1) - 5 + i + 1 =
          closes.length - 1 - 5 + i + 1 := by omega
      have e5 : closes.length ⊓ (closes.length - 1) - 5 + i =
          closes.length - 1 - 5 + i := by omega
      simp only [e3, e4, e5]
      rw [round2_pct]
  simp only [sparkOf, sparkSpecOf]
  rw [key]

/-- C3: every record produced by `extract_metrics` has a spark of length
exactly 5, equal to the guarded percent changes of the last up-to-5
consecutive close pairs in recency order, left-padded with 0.0. -/
theorem extract_metrics_spark (frame : Frame) (sym : String) (y : ℤ)
    (r : MetricRecord) (h : extract_metrics frame sym y = some r) :
    r.spark.length = 5 ∧ r.spark = sparkSpecOf (closesOf frame) := by
  have hs : r.spark = sparkOf (closesOf frame) := by
    rw [extract_metrics] at h
    split at h
    · exact absurd h (by simp)
    · rw [Option.some.injEq] at h
      subst h
      rfl
  rw [hs]
  exact ⟨sparkOf_length _, sparkOf_eq_sparkSpecOf _⟩

/-- Witness for C3 on the 10-bar scenario frame. -/
theorem extract_metrics_spark_witness :
    scenarioRecord.spark.length = 5 ∧
    scenarioRecord.spark = sparkSpecOf (closesOf scenarioFrame) :=
  extract_metrics_spark scenarioFrame "SPY" 2025 scenarioRecord
    (by with_unfolding_all decide)

/-- C7 counterexample: on the spec's 10-close scenario the code computes
`w1 = pct(106, closes[-6]) = pct(106, 103) = 2.91`, not the claimed
`pct(106, 101) = 4.95`. -/
theorem scenario_w1_cex :
    (extract_metrics scenarioFrame "SPY" 2025).map MetricRecord.w1 =
        some 2.91 ∧
    (extract_metrics scenarioFrame "SPY" 2025).map MetricRecord.w1 ≠
        some 4.95 := by
  with_unfolding_all decide

/-- C7 amended: on the 10-close scenario `extract_metrics` yields
`d1 = pct(106,103) = 2.91`, `w1 = pct(106,103) = 2.91` (the close 5 bars
earlier is 103, not 101), `hi52 = pct(106,106) = 0.0`, and a spark that is
exactly the last 5 pairwise percent changes with no zero-padding. -/
theorem scenario_metrics :
    extract_metrics scenarioFrame "SPY" 2025 = some scenarioRecord ∧
    scenarioRecord.d1 = pct 106 103 ∧ scenarioRecord.d1 = 2.91 ∧
    scenarioRecord.w1 = pct 106 103 ∧ scenarioRecord.w1 = 2.91 ∧
    scenarioRecord.hi52 = pct 106 106 ∧ scenarioRecord.hi52 = 0 ∧
    scenarioRecord.spark =
      [pct 101 103, pct 104 101, pct 105 104, pct 103 105, pct 106 103] ∧
    scenarioRecord.spark.length = 5 := by
  with_unfolding_all decide

/-! Lemmas for the hi52 invariant. -/

theorem length_closesOf (frame : Frame) :
    (closesOf frame).length = (dropnaClose frame.bars).length := by
  unfold closesOf dropnaClose
  induction frame.bars with
  | nil => rfl
  | cons b bs ih =>
    cases hc : b.close with
    | none => simp [List.filter_cons, List.filterMap_cons, hc, ih]
    | some c => simp [List.filter_cons, List.filterMap_cons, hc, ih]

theorem extract_hi52_shape (frame : Frame) (sym : String) (y : ℤ)
    (r : MetricRecord) (h : extract_metrics frame sym y = some r) :
    r.hi52 = pct ((closesOf frame).getD ((closesOf frame).length - 1) 0)
        (hi52PriceOf frame
          ((closesOf frame).getD ((closesOf frame).length - 1) 0)) ∧
    2 ≤ (dropnaClose frame.bars).length := by
  rw [extract_metrics] at h
  split at h
  · exact absurd h (by simp)
  · rw [Option.some.injEq] at h
    subst h
    exact ⟨rfl, by omega⟩

theorem invariant_last_close {frame : Frame}
    (hinv : barInvariantB frame = true)
    (hlen : 1 ≤ (closesOf frame).length) :
    0 < (closesOf frame).getD ((closesOf frame).length - 1) 0 ∧
    ∃ hb ∈ highsOf frame,
      (closesOf frame).getD ((closesOf frame).length - 1) 0 ≤ hb := by
  have hidx : (closesOf frame).length - 1 < (closesOf frame).length := by omega
  rw [List.getD_eq_getElem _ _ hidx]
  have hmem : (closesOf frame)[(closesOf frame).length - 1] ∈ closesOf frame :=
    List.getElem_mem _
  simp only [closesOf, List.mem_filterMap] at hmem
  obtain ⟨b, hbmem, hbc⟩ := hmem
  have hbars : b ∈ frame.bars := (List.mem_filter.mp hbmem).1
  have hpred := (List.all_eq_true.mp hinv) b hbars
  rw [hbc] at hpred
  cases hh : b.high with
  | none =>
    rw [hh] at hpred
    simp at hpred
  | some hb =>
    rw [hh] at hpred
    simp only [Option.isSome_some, Bool.not_true, Bool.false_or,
      decide_eq_true_eq] at hpred
    refine ⟨hpred.1, hb, ?_, hpred.2⟩
    simp only [highsOf, List.mem_filterMap]
    exact ⟨b, hbmem, hh⟩

/-- C10 counterexample: under the Bar invariant with a High column, a
latest close of 99999 against a maximum high of 100000 still yields
`hi52 = 0.0` (the −0.001% gap rounds to 0.00), so `hi52 = 0.0` does not
hold *exactly* when the latest close equals the maximum high. -/
theorem hi52_zero_ne_high_cex :
    barInvariantB nearHighFrame = true ∧
    nearHighFrame.hasHigh = true ∧
    (extract_metrics nearHighFrame "X" 2025).map MetricRecord.hi52 =
        some 0 ∧
    (closesOf nearHighFrame).getD ((closesOf nearHighFrame).length - 1) 0 =
        99999 ∧
    ((highsOf nearHighFrame).maximum).unbot' 0 = 100000 ∧
    (99999 : ℚ) ≠ 100000 := by
  have hclose : (closesOf nearHighFrame).getD
      ((closesOf nearHighFrame).length - 1) 0 = 99999 := rfl
  have hmax : ∀ d : ℚ, ((highsOf nearHighFrame).maximum).unbot' d = 100000 := by
    intro d
    norm_num [highsOf, dropnaClose, nearHighFrame, mkBar, List.maximum,
      List.argmax, List.argAux, List.filterMap_cons, List.foldl]
    rfl
  have hinv : barInvariantB nearHighFrame = true := by
    rw [barInvariantB, List.all_eq_true]
    intro b hb
    simp only [nearHighFrame, mkBar, List.mem_cons, List.not_mem_nil,
      or_false] at hb
    rcases hb with rfl | rfl <;> simp only [Option.isSome_some, Bool.not_true,
      Bool.false_or] <;> rw [decide_eq_true_eq] <;> norm_num
  have hguard : ¬ ((dropnaClose nearHighFrame.bars).length < 2) := by decide
  obtain ⟨r, hr⟩ : ∃ r, extract_metrics nearHighFrame "X" 2025 = some r := by
    simp only [extract_metrics, if_neg hguard]
    exact ⟨_, rfl⟩
  have hshape := (extract_hi52_shape nearHighFrame "X" 2025 r hr).1
  refine ⟨hinv, rfl, ?_, hclose, hmax 0, by norm_num⟩
  rw [hr]
  simp only [Option.map_some']
  rw [hshape, hclose]
  rw [hi52PriceOf, if_pos (show nearHighFrame.hasHigh = true from rfl),
    hmax 99999]
  norm_num [pct, round2, roundHalfEven]

/-- C10 amended: under the Bar invariant (retained bars have
`0 < close ≤ high`) on a frame with a High column, every produced record
has `hi52 ≤ 0.0`; `pct x x = 0.0` for every `x`; and `hi52 = 0.0` holds
*whenever* (no longer "exactly when") the latest close equals the maximum
high. -/
theorem hi52_nonpos_spec (frame : Frame) (sym : String) (y : ℤ)
    (r : MetricRecord) (hinv : barInvariantB frame = true)
    (hh : frame.hasHigh = true) (h : extract_metrics frame sym y = some r) :
    r.hi52 ≤ 0 ∧ (∀ x : ℚ, pct x x = 0) ∧
    ((closesOf frame).getD ((closesOf frame).length - 1) 0 =
        hi52PriceOf frame ((closesOf frame).getD ((closesOf frame).length - 1) 0) →
      r.hi52 = 0) := by
  obtain ⟨hr, hlen2⟩ := extract_hi52_shape frame sym y r h
  have hlen1 : 1 ≤ (closesOf frame).length := by
    rw [length_closesOf]
    omega
  obtain ⟨hpos, hb, hbmem, hble⟩ := invariant_last_close hinv hlen1
  refine ⟨?_, pct_self, ?_⟩
  · rw [hr]
    have hhi : (closesOf frame).getD ((closesOf frame).length - 1) 0 ≤
        hi52PriceOf frame ((closesOf frame).getD ((closesOf frame).length - 1) 0) := by
      rw [hi52PriceOf, if_pos hh]
      have hne : highsOf frame ≠ [] := by
        intro hnil
        rw [hnil] at hbmem
        exact absurd hbmem (List.not_mem_nil _)
      obtain ⟨m, hm⟩ : ∃ m : ℚ, (highsOf frame).maximum = (m : WithBot ℚ) := by
        cases hmax : (highsOf frame).maximum with
        | bot => exact absurd (List.maximum_eq_bot.mp hmax) hne
        | coe m => exact ⟨m, rfl⟩
      rw [hm]
      have hbm : hb ≤ m := List.le_maximum_of_mem hbmem hm
      calc (closesOf frame).getD ((closesOf frame).length - 1) 0
          ≤ hb := hble
        _ ≤ m := hbm
        _ = WithBot.unbot' _ (m : WithBot ℚ) := (WithBot.unbot'_coe _ _).symm
    exact pct_nonpos_of_le hhi (lt_of_lt_of_le hpos hhi)
  · intro heq
    rw [hr, ← heq]
    exact pct_self _

/-- Witness for the amended C10 at a concrete two-bar invariant frame. -/
theorem hi52_nonpos_spec_witness : smallRecord.hi52 ≤ 0 :=
  (hi52_nonpos_spec smallFrame "Y" 2025 smallRecord
    (by with_unfolding_all decide) rfl (by with_unfolding_all decide)).1

/-! Retry-loop lemmas. -/

theorem tryDownload_lt (attempts : ℕ → Except Unit DownloadData) :
    ∀ (fuel start : ℕ) (d : DownloadData) (j : ℕ),
      tryDownload attempts start fuel = some (d, j) → j < start + fuel := by
  intro fuel
  induction fuel with
  | zero => intro start d j h; simp [tryDownload] at h
  | succ n ih =>
    intro start d j h
    rw [tryDownload] at h
    cases hA : attempts start with
    | ok d2 =>
      rw [hA] at h
      simp only [Option.some.injEq, Prod.mk.injEq] at h
      omega
    | error e =>
      rw [hA] at h
      have := ih (start + 1) d j h
      omega

theorem tryDownload_none (attempts : ℕ → Except Unit DownloadData) :
    ∀ (fuel start : ℕ),
      (∀ i < fuel, attempts (start + i) = .error ()) →
      tryDownload attempts start fuel = none := by
  intro fuel
  induction fuel with
  | zero => intro start h; rfl
  | succ n ih =>
    intro start h
    rw [tryDownload]
    have h0 : attempts start = .error () := by
      have := h 0 (by omega)
      simpa using this
    rw [h0]
    exact ih (start + 1) fun i hi => by
      have := h (i + 1) (by omega)
      simpa [Nat.add_assoc, Nat.add_comm 1 i] using this

/-- C5: the retry loop sleeps a fixed 5 units per failed attempt, makes at
most `retries` download attempts, and after exhausting the budget returns
the empty result map with `retries` failed attempts — it never propagates
the failure. -/
theorem fetch_batch_retry (tickers : List String)
    (attempts : ℕ → Except Unit DownloadData) (y : ℤ) (retries : ℕ) :
    (∃ k ≤ retries, (fetch_batch tickers attempts y retries).2.1 =
        List.replicate k 5) ∧
    (fetch_batch tickers attempts y retries).2.2 ≤ retries ∧
    (∀ s ∈ (fetch_batch tickers attempts y retries).2.1, s = 5) ∧
    ((∀ i < retries, attempts i = .error ()) →
      fetch_batch tickers attempts y retries =
        ([], List.replicate retries 5, retries)) := by
  cases h : tryDownload attempts 0 retries with
  | none =>
    simp only [fetch_batch, h]
    exact ⟨⟨retries, le_refl _, rfl⟩, le_refl _,
      fun s hs => List.eq_of_mem_replicate hs, fun _ => trivial⟩
  | some p =>
    obtain ⟨d, j⟩ := p
    have hj : j < retries := by
      have := tryDownload_lt attempts retries 0 d j h
      omega
    have hfb : fetch_batch tickers attempts y retries =
        ((if tickers.length == 1 then processSingle (tickers.headD "") d y
          else processMulti tickers d y), List.replicate j 5, j + 1) := by
      simp only [fetch_batch, h]
      split <;> simp_all
    rw [hfb]
    refine ⟨⟨j, le_of_lt hj, rfl⟩, show j + 1 ≤ retries by omega,
      fun s hs => List.eq_of_mem_replicate hs, ?_⟩
    intro hall
    have := tryDownload_none attempts retries 0 fun i hi => by
      simpa using hall i hi
    rw [this] at h
    exact absurd h (by simp)

/-- Witness for C5: with every attempt failing and the default budget 3,
`fetch_batch` returns the empty map after three attempts and three fixed
5-unit sleeps. -/
theorem fetch_batch_retry_witness :
    fetch_batch ["SPY"] (fun _ => Except.error ()) 2025 3 =
      ([], List.replicate 3 5, 3) :=
  (fetch_batch_retry ["SPY"] (fun _ => Except.error ()) 2025 3).2.2.2
    (fun _ _ => rfl)

/-- C4: the result keys of `fetch_batch` are drawn from the input list; a
`MetricRecord` appears only for an identifier whose slice resolved and
extracted successfully (extractor absence yields no record); an identifier
whose slice raises is omitted; and changing one identifier's slice leaves
every other identifier's results unchanged — a per-identifier failure
never aborts the rest of the batch. -/
theorem fetch_batch_isolation (tickers : List String) (d d2 : DownloadData)
    (y : ℤ) (attempts : ℕ → Except Unit DownloadData) (retries : ℕ)
    (t0 : String) :
    (∀ p ∈ (fetch_batch tickers attempts y retries).1, p.1 ∈ tickers) ∧
    (∀ sym r, (sym, some r) ∈ processMulti tickers d y →
      ∃ fr, d.slice sym = .found fr ∧
        extract_metrics (dropnaRow fr) sym y = some r) ∧
    (d.slice t0 = .raises → ∀ v, (t0, v) ∉ processMulti tickers d y) ∧
    ((∀ s, s ≠ t0 → d.slice s = d2.slice s) →
      (processMulti tickers d y).filter (fun p => p.1 != t0) =
        (processMulti tickers d2 y).filter (fun p => p.1 != t0)) := by
  have hmulti : ∀ (dd : DownloadData) (p : String × Option MetricRecord),
      p ∈ processMulti tickers dd y → p.1 ∈ tickers := by
    intro dd p hp
    rw [processMulti, List.mem_filterMap] at hp
    obtain ⟨sym, hsym, he⟩ := hp
    cases hsl : dd.slice sym <;> rw [hsl] at he <;> simp at he
    obtain ⟨rfl, -⟩ := he
    exact hsym
  refine ⟨?_, ?_, ?_, ?_⟩
  · intro p hp
    cases h : tryDownload attempts 0 retries with
    | none =>
      simp only [fetch_batch, h] at hp
      simp at hp
    | some q =>
      obtain ⟨dq, j⟩ := q
      simp only [fetch_batch, h] at hp
      by_cases hone : (tickers.length == 1) = true
      · rw [if_pos hone] at hp
        cases tickers with
        | nil => simp at hone
        | cons a rest =>
          cases rest with
          | cons b rest2 => simp at hone
          | nil =>
            simp only [processSingle, List.headD_cons] at hp
            cases hw : dq.whole <;> rw [hw] at hp <;> simp_all
      · rw [if_neg hone] at hp
        exact hmulti dq p hp
  · intro sym r hp
    rw [processMulti, List.mem_filterMap] at hp
    obtain ⟨sym2, hsym2, he⟩ := hp
    cases hsl : d.slice sym2 <;> rw [hsl] at he <;> simp at he
    obtain ⟨rfl, hext⟩ := he
    exact ⟨_, hsl, hext⟩
  · intro hr v hv
    rw [processMulti, List.mem_filterMap] at hv
    obtain ⟨sym2, hsym2, he⟩ := hv
    cases hsl : d.slice sym2 <;> rw [hsl] at he <;> simp at he
    obtain ⟨rfl, -⟩ := he
    rw [hsl] at hr
    exact absurd hr (by simp)
  · intro hagree
    clear hmulti
    have key : ∀ (dd : DownloadData) (sym : String) (rest : List String),
        processMulti (sym :: rest) dd y =
          (match dd.slice sym with
            | .missing => []
            | .raises => []
            | .found fr => [(sym, extract_metrics (dropnaRow fr) sym y)]) ++
            processMulti rest dd y := by
      intro dd sym rest
      cases hsl : dd.slice sym <;>
        simp [processMulti, List.filterMap_cons, hsl]
    induction tickers with
    | nil => rfl
    | cons sym rest ih =>
      rw [key d, key d2, List.filter_append, List.filter_append, ih]
      congr 1
      by_cases hs : sym = t0
      · subst hs
        cases h1 : d.slice sym <;> cases h2 : d2.slice sym <;>
          simp [List.filter_cons]
      · rw [hagree sym hs]

/-- Witness for C4: in a two-identifier batch where one slice raises, the
raising identifier is absent and the other is still extracted. -/
theorem fetch_batch_isolation_witness :
    ("BAD", (none : Option MetricRecord)) ∉
      processMulti ["GOOD", "BAD"] oneBadData 2025 :=
  (fetch_batch_isolation ["GOOD", "BAD"] oneBadData oneBadData 2025
    (fun _ => Except.error ()) 3 "BAD").2.2.1 rfl none

/-- C6: the five ranked groups are post-sorted; the sort is total (every
list is permuted into one sorted by `w1` descending) and stable (an
equal-`w1` pair in input order stays in that order); on w1 values
`[1, -2, 1, 0]` it yields `[1, 1, 0, -2]` with the two equal records in
their original relative order. -/
theorem ranked_sort_spec :
    (∀ (out : String → List MetricRecord) key, key ∈ rankedKeys →
      postSort out key = rankedSort (out key)) ∧
    (∀ l : List MetricRecord,
      (rankedSort l).Perm l ∧
      List.Pairwise (fun a b : MetricRecord => b.w1 ≤ a.w1) (rankedSort l)) ∧
    (∀ (l : List MetricRecord) (a b : MetricRecord), a.w1 = b.w1 →
      [a, b].Sublist l → [a, b].Sublist (rankedSort l)) ∧
    rankedSort [exRec "A" 1, exRec "B" (-2), exRec "C" 1, exRec "D" 0] =
      [exRec "A" 1, exRec "C" 1, exRec "D" 0, exRec "B" (-2)] := by
  have htrans : ∀ a b c : MetricRecord,
      decide (b.w1 ≤ a.w1) = true → decide (c.w1 ≤ b.w1) = true →
      decide (c.w1 ≤ a.w1) = true := by
    intro a b c hab hbc
    rw [decide_eq_true_eq] at *
    exact le_trans hbc hab
  have htotal : ∀ a b : MetricRecord,
      (decide (b.w1 ≤ a.w1) || decide (a.w1 ≤ b.w1)) = true := by
    intro a b
    rcases le_total b.w1 a.w1 with h | h <;> simp [h]
  refine ⟨?_, ?_, ?_, ?_⟩
  · intro out key hk
    simp [postSort, hk]
  · intro l
    refine ⟨List.mergeSort_perm l _, ?_⟩
    have h := List.sorted_mergeSort htrans htotal l
    exact h.imp fun hab => of_decide_eq_true hab
  · intro l a b hab hsub
    exact List.pair_sublist_mergeSort htrans htotal
      (by rw [hab]; simp) hsub
  · norm_num [rankedSort, List.mergeSort, List.splitInTwo, List.splitAt,
      List.splitAt.go, List.merge, exRec]

/-- Witness for C6: the two equal-`w1` records of the example keep their
input order in the sorted output. -/
theorem ranked_sort_witness :
    [exRec "A" 1, exRec "C" 1].Sublist
      (rankedSort [exRec "A" 1, exRec "B" (-2), exRec "C" 1, exRec "D" 0]) :=
  ranked_sort_spec.2.2.1 _ (exRec "A" 1) (exRec "C" 1) rfl
    (by with_unfolding_all decide)

end MarketDash
